import Mathlib

/-!
Verification of the PersonalFinanceTracker repository's aggregation and API
logic against its specification.

The development shallowly embeds the TypeScript source:

* amounts are modelled as exact rationals (the store keeps decimal text and
  the client converts at the aggregation boundary);
* a date is modelled by the three projections the aggregation code reads
  from it (getFullYear, getMonth, getDay);
* JavaScript objects used as insertion-ordered string-keyed maps become
  association lists updated by an upsert that preserves insertion order;
* the stable Array.prototype.sort with comparator (a, b) => b[1] - a[1]
  becomes a stable insertion sort by descending second component;
* JavaScript Math.round(x) = floor(x + 1/2), which is Mathlib's round.
-/

namespace FinanceAdvice

/-- The projections of a calendar date used by the aggregation code:
getFullYear, getMonth (0..11) and getDay (0 = Sunday .. 6 = Saturday). -/
structure EDate where
  year : Int
  month : Fin 12
  wday : Fin 7
  deriving DecidableEq, Repr

/-- An expense record as consumed by the client aggregation code
(insights-charts.tsx, spending-chart.tsx, summary-cards).  Fields the
aggregation never reads (id, userId, description, note, createdAt) are
omitted. -/
structure Expense where
  amount : Rat
  category : String
  date : EDate
  deriving DecidableEq, Repr

/-- Absolute month index of a date: two dates fall in the same calendar
month iff getMonth and getFullYear agree, iff their month indexes agree. -/
def monthIndex (d : EDate) : Int := d.year * 12 + (d.month : Nat)

/-- Insertion-order-preserving upsert on an association list, modelling
`categoryTotals[category] += Number(expense.amount)` on a JavaScript object
(string keys enumerate in insertion order). -/
def upsert (l : List (String × Rat)) (c : String) (a : Rat) : List (String × Rat) :=
  match l with
  | [] => [(c, a)]
  | (c0, v) :: t => if c0 = c then (c0, v + a) :: t else (c0, v) :: upsert t c a

/-- The `categoryTotals` object built by the forEach loop of
getCategoryData: one entry per occurring category, in first-occurrence
order, holding the summed amounts. -/
def categoryTotals (es : List Expense) : List (String × Rat) :=
  es.foldl (fun acc e => upsert acc e.category e.amount) []

/-- Descending-by-value relation on (category, total) pairs, the comparator
`(a, b) => b[1] - a[1]` of the sort call. -/
def valueDesc (a b : String × Rat) : Prop := a.2 ≥ b.2

instance : DecidableRel valueDesc := fun a b => inferInstanceAs (Decidable (a.2 ≥ b.2))

instance : IsTotal (String × Rat) valueDesc := ⟨fun a b => le_total b.2 a.2⟩

instance : IsTrans (String × Rat) valueDesc := ⟨fun _ _ _ hab hbc => le_trans hbc hab⟩

/-- The sorted entry list of getCategoryData: stable sort of the category
totals, descending by total (Array.prototype.sort is stable; a stable
insertion sort computes the same reordering). -/
def sortedCategoryTotals (es : List Expense) : List (String × Rat) :=
  List.insertionSort valueDesc (categoryTotals es)

/-- Result record of getCategoryData in insights-charts.tsx.  The colors
field (a pure per-label color lookup) is presentation only and omitted. -/
structure CategoryData where
  labels : List String
  data : List Rat
  percentages : List Int
  total : Rat
  deriving DecidableEq, Repr

/-- getCategoryData of insights-charts.tsx: group by category, sort
descending by total, take the grand total of the bucketed data and the
rounded percentage of each bucket. -/
def getCategoryData (es : List Expense) : CategoryData :=
  let sorted := sortedCategoryTotals es
  let labels := sorted.map Prod.fst
  let data := sorted.map Prod.snd
  let total := data.sum
  let percentages := data.map (fun v => round (v / total * 100))
  { labels := labels, data := data, percentages := percentages, total := total }

/-- getCategoryData of spending-chart.tsx computes the same grouping and
sort and returns only labels and data. -/
def getCategoryDataDashboard (es : List Expense) : List String × List Rat :=
  let sorted := sortedCategoryTotals es
  (sorted.map Prod.fst, sorted.map Prod.snd)

/-- The top spending category displayed by the insights page:
`categoryData.labels[0]`, shown only when labels is non-empty. -/
def topCategory (es : List Expense) : Option String :=
  (getCategoryData es).labels.head?

/-- Specification-side definition: the total amount spent on category c,
written directly as a filtered sum over the input list. -/
def categoryValue (es : List Expense) (c : String) : Rat :=
  ((es.filter (fun e => e.category = c)).map Expense.amount).sum

/-- The total value an association list assigns to key c (sum over all
entries with key c; with pairwise-distinct keys this is the entry value). -/
def keyVal (l : List (String × Rat)) (c : String) : Rat :=
  ((l.filter (fun p => p.1 = c)).map Prod.snd).sum

theorem keyVal_nil (c : String) : keyVal [] c = 0 := rfl

theorem keyVal_cons (p : String × Rat) (t : List (String × Rat)) (c : String) :
    keyVal (p :: t) c = (if p.1 = c then p.2 else 0) + keyVal t c := by
  by_cases h : p.1 = c <;> simp [keyVal, List.filter_cons, h]

theorem categoryValue_nil (c : String) : categoryValue [] c = 0 := rfl

theorem categoryValue_cons (e : Expense) (t : List Expense) (c : String) :
    categoryValue (e :: t) c
      = (if e.category = c then e.amount else 0) + categoryValue t c := by
  by_cases h : e.category = c <;> simp [categoryValue, List.filter_cons, h]

theorem keyVal_upsert (l : List (String × Rat)) (c : String) (a : Rat) (c1 : String) :
    keyVal (upsert l c a) c1 = keyVal l c1 + (if c1 = c then a else 0) := by
  induction l with
  | nil =>
      rw [upsert, keyVal_cons, keyVal_nil, add_zero, zero_add]
      by_cases h : c1 = c
      · rw [if_pos h.symm, if_pos h]
      · rw [if_neg (fun hh => h hh.symm), if_neg h]
  | cons p t ih =>
      obtain ⟨c0, v⟩ := p
      rw [upsert]
      by_cases h : c0 = c
      · rw [if_pos h, keyVal_cons, keyVal_cons]
        by_cases h1 : c1 = c
        · rw [if_pos (h.trans h1.symm), if_pos (h.trans h1.symm), if_pos h1]
          ring
        · rw [if_neg (fun hh => h1 ((h.symm.trans hh).symm)),
            if_neg (fun hh => h1 ((h.symm.trans hh).symm)), if_neg h1]
          ring
      · rw [if_neg h, keyVal_cons, keyVal_cons, ih]
        ring

theorem keyVal_foldl (es : List Expense) (acc : List (String × Rat)) (c : String) :
    keyVal (es.foldl (fun acc e => upsert acc e.category e.amount) acc) c
      = keyVal acc c + categoryValue es c := by
  induction es generalizing acc with
  | nil => rw [List.foldl_nil, categoryValue_nil, add_zero]
  | cons e t ih =>
      rw [List.foldl_cons, ih, keyVal_upsert, categoryValue_cons]
      by_cases h : e.category = c
      · rw [if_pos h, if_pos h.symm]
        ring
      · rw [if_neg h, if_neg (fun hh => h hh.symm)]
        ring

theorem keyVal_categoryTotals (es : List Expense) (c : String) :
    keyVal (categoryTotals es) c = categoryValue es c := by
  rw [categoryTotals, keyVal_foldl, keyVal_nil, zero_add]

theorem keyVal_of_perm {l1 l2 : List (String × Rat)} (h : l1.Perm l2) (c : String) :
    keyVal l1 c = keyVal l2 c := by
  unfold keyVal
  exact List.Perm.sum_eq (List.Perm.map Prod.snd (List.Perm.filter _ h))

theorem keyVal_sorted (es : List Expense) (c : String) :
    keyVal (sortedCategoryTotals es) c = categoryValue es c := by
  unfold sortedCategoryTotals
  rw [keyVal_of_perm (List.perm_insertionSort valueDesc (categoryTotals es)) c,
    keyVal_categoryTotals]

theorem mem_keys_upsert (l : List (String × Rat)) (c : String) (a : Rat) (x : String) :
    x ∈ (upsert l c a).map Prod.fst ↔ x ∈ l.map Prod.fst ∨ x = c := by
  induction l with
  | nil => simp [upsert, eq_comm]
  | cons p t ih =>
      by_cases h : p.1 = c
      · simp only [upsert, if_pos h, List.map_cons, List.mem_cons]
        constructor
        · rintro (rfl | hx)
          · exact Or.inl (Or.inl rfl)
          · exact Or.inl (Or.inr hx)
        · rintro ((rfl | hx) | rfl)
          · exact Or.inl rfl
          · exact Or.inr hx
          · exact Or.inl h.symm
      · simp only [upsert, if_neg h, List.map_cons, List.mem_cons, ih]
        tauto

theorem keys_nodup_upsert (l : List (String × Rat)) (c : String) (a : Rat)
    (h : (l.map Prod.fst).Nodup) : ((upsert l c a).map Prod.fst).Nodup := by
  induction l with
  | nil => simp [upsert]
  | cons p t ih =>
      obtain ⟨c0, v⟩ := p
      rw [upsert]
      by_cases hc : c0 = c
      · rw [if_pos hc]
        simpa using h
      · rw [if_neg hc, List.map_cons, List.nodup_cons]
        simp only [List.map_cons, List.nodup_cons] at h
        refine ⟨?_, ih h.2⟩
        rw [mem_keys_upsert]
        rintro (hx | rfl)
        · exact h.1 hx
        · exact hc rfl

theorem keys_nodup_foldl (es : List Expense) (acc : List (String × Rat))
    (h : (acc.map Prod.fst).Nodup) :
    ((es.foldl (fun acc e => upsert acc e.category e.amount) acc).map Prod.fst).Nodup := by
  induction es generalizing acc with
  | nil => simpa using h
  | cons e t ih => exact ih _ (keys_nodup_upsert _ _ _ h)

theorem keys_nodup_categoryTotals (es : List Expense) :
    ((categoryTotals es).map Prod.fst).Nodup :=
  keys_nodup_foldl es [] (by simp)

theorem mem_keys_foldl (es : List Expense) (acc : List (String × Rat)) (x : String) :
    (x ∈ (es.foldl (fun acc e => upsert acc e.category e.amount) acc).map Prod.fst)
      ↔ x ∈ acc.map Prod.fst ∨ ∃ e ∈ es, e.category = x := by
  induction es generalizing acc with
  | nil => simp
  | cons e t ih =>
      rw [List.foldl_cons, ih, mem_keys_upsert]
      constructor
      · rintro ((hx | rfl) | he)
        · exact Or.inl hx
        · exact Or.inr ⟨e, List.mem_cons_self e t, rfl⟩
        · obtain ⟨f, hf, hfx⟩ := he
          exact Or.inr ⟨f, List.mem_cons_of_mem e hf, hfx⟩
      · rintro (hx | ⟨f, hf, hfx⟩)
        · exact Or.inl (Or.inl hx)
        · rcases List.mem_cons.1 hf with rfl | hft
          · exact Or.inl (Or.inr hfx.symm)
          · exact Or.inr ⟨f, hft, hfx⟩

theorem mem_keys_categoryTotals (es : List Expense) (x : String) :
    x ∈ (categoryTotals es).map Prod.fst ↔ ∃ e ∈ es, e.category = x := by
  rw [categoryTotals, mem_keys_foldl]
  simp

theorem keyVal_eq_zero_of_not_mem {l : List (String × Rat)} {c : String}
    (h : c ∉ l.map Prod.fst) : keyVal l c = 0 := by
  induction l with
  | nil => rfl
  | cons p t ih =>
      simp only [List.map_cons, List.mem_cons, not_or] at h
      rw [keyVal_cons, if_neg (fun hp => h.1 hp.symm), ih h.2, add_zero]

theorem keyVal_of_mem {l : List (String × Rat)} {p : String × Rat}
    (hnd : (l.map Prod.fst).Nodup) (hp : p ∈ l) : keyVal l p.1 = p.2 := by
  induction l with
  | nil => cases hp
  | cons q t ih =>
      simp only [List.map_cons, List.nodup_cons] at hnd
      rcases List.mem_cons.1 hp with rfl | hpt
      · rw [keyVal_cons, if_pos rfl,
          keyVal_eq_zero_of_not_mem hnd.1, add_zero]
      · have h1 : p.1 ∈ t.map Prod.fst := List.mem_map_of_mem Prod.fst hpt
        have hq : ¬ q.1 = p.1 := fun hq => hnd.1 (by rw [hq]; exact h1)
        rw [keyVal_cons, if_neg hq, ih hnd.2 hpt, zero_add]

theorem getCategoryData_labels (es : List Expense) :
    (getCategoryData es).labels = (sortedCategoryTotals es).map Prod.fst := rfl

theorem getCategoryData_data (es : List Expense) :
    (getCategoryData es).data = (sortedCategoryTotals es).map Prod.snd := rfl

theorem getCategoryData_total (es : List Expense) :
    (getCategoryData es).total = (getCategoryData es).data.sum := rfl

theorem getCategoryData_percentages (es : List Expense) :
    (getCategoryData es).percentages
      = (getCategoryData es).data.map
          (fun v => round (v / (getCategoryData es).total * 100)) := rfl

theorem sorted_keys_nodup (es : List Expense) :
    ((sortedCategoryTotals es).map Prod.fst).Nodup :=
  (List.Perm.nodup_iff
    (List.Perm.map Prod.fst (List.perm_insertionSort valueDesc (categoryTotals es)))).2
    (keys_nodup_categoryTotals es)

theorem mem_sorted_keys (es : List Expense) (x : String) :
    x ∈ (sortedCategoryTotals es).map Prod.fst ↔ ∃ e ∈ es, e.category = x := by
  unfold sortedCategoryTotals
  rw [List.Perm.mem_iff
    (List.Perm.map Prod.fst (List.perm_insertionSort valueDesc (categoryTotals es)))]
  exact mem_keys_categoryTotals es x

theorem sum_snd_upsert (l : List (String × Rat)) (c : String) (a : Rat) :
    ((upsert l c a).map Prod.snd).sum = (l.map Prod.snd).sum + a := by
  induction l with
  | nil => simp [upsert]
  | cons p t ih =>
      obtain ⟨c0, v⟩ := p
      rw [upsert]
      by_cases h : c0 = c
      · rw [if_pos h]
        simp only [List.map_cons, List.sum_cons]
        ring
      · rw [if_neg h]
        simp only [List.map_cons, List.sum_cons, ih]
        ring

theorem sum_snd_foldl (es : List Expense) (acc : List (String × Rat)) :
    (((es.foldl (fun acc e => upsert acc e.category e.amount) acc)).map Prod.snd).sum
      = (acc.map Prod.snd).sum + (es.map Expense.amount).sum := by
  induction es generalizing acc with
  | nil => simp
  | cons e t ih =>
      rw [List.foldl_cons, ih, sum_snd_upsert]
      simp only [List.map_cons, List.sum_cons]
      ring

theorem data_sum_eq_total_amount (es : List Expense) :
    (getCategoryData es).data.sum = (es.map Expense.amount).sum := by
  rw [getCategoryData_data]
  unfold sortedCategoryTotals
  rw [List.Perm.sum_eq (List.Perm.map Prod.snd (List.perm_insertionSort valueDesc (categoryTotals es))),
    categoryTotals, sum_snd_foldl]
  simp

theorem data_entry_eq_categoryValue (es : List Expense) (i : Nat)
    (hi : i < (getCategoryData es).labels.length) :
    (getCategoryData es).data.getD i 0
      = categoryValue es ((getCategoryData es).labels.getD i "") := by
  rw [getCategoryData_labels] at hi ⊢
  rw [getCategoryData_data]
  have hs : i < (sortedCategoryTotals es).length := by
    simpa using hi
  have hd : i < ((sortedCategoryTotals es).map Prod.snd).length := by
    simpa using hi
  rw [List.getD_eq_getElem _ _ hd, List.getD_eq_getElem _ _ hi,
    List.getElem_map, List.getElem_map, ← keyVal_sorted es]
  exact (keyVal_of_mem (sorted_keys_nodup es) (List.getElem_mem hs)).symm

/-- The date used in the specification scenario; only its projections
matter, none of which the category breakdown reads. -/
def dateT0 : EDate := { year := 2024, month := 0, wday := 1 }

/-- The expense list of the specification scenario. -/
def scenarioExpenses : List Expense :=
  [ { amount := 50, category := "Food", date := dateT0 },
    { amount := 30, category := "Food", date := dateT0 },
    { amount := 20, category := "Transport", date := dateT0 } ]

theorem scenario_breakdown_eval : getCategoryData scenarioExpenses
    = { labels := ["Food", "Transport"], data := [80, 20],
        percentages := [80, 20], total := 100 } := by
  norm_num [getCategoryData, sortedCategoryTotals, categoryTotals, scenarioExpenses,
    dateT0, upsert, List.insertionSort, List.orderedInsert, valueDesc, round_eq]

/-- C1: for every list of expense records the category breakdown groups the
expenses by category and sums their amounts (entry i of data is the filtered
amount sum of label i), orders the pairs in descending order of sum, assigns
each category the percentage round(sum / grand total * 100) where the grand
total is the sum of all amounts, and reports the first label as the top
category; on the scenario list it yields Food:80 (80 percent) and
Transport:20 (20 percent) with top category Food. -/
theorem categoryBreakdown_correct :
    (∀ es : List Expense, ∀ i : Nat, i < (getCategoryData es).labels.length →
        (getCategoryData es).data.getD i 0
          = categoryValue es ((getCategoryData es).labels.getD i ""))
    ∧ (∀ es : List Expense,
        List.Pairwise (fun x y : Rat => x ≥ y) (getCategoryData es).data)
    ∧ (∀ es : List Expense, (getCategoryData es).percentages
        = (getCategoryData es).data.map
            (fun v => round (v / (getCategoryData es).total * 100)))
    ∧ (∀ es : List Expense, (getCategoryData es).total = (es.map Expense.amount).sum)
    ∧ getCategoryData scenarioExpenses
        = { labels := ["Food", "Transport"], data := [80, 20],
            percentages := [80, 20], total := 100 }
    ∧ topCategory scenarioExpenses = some "Food" := by
  refine ⟨fun es i hi => data_entry_eq_categoryValue es i hi, fun es => ?_, fun es => rfl,
    fun es => (getCategoryData_total es).trans (data_sum_eq_total_amount es),
    scenario_breakdown_eval, ?_⟩
  · rw [getCategoryData_data]
    exact List.pairwise_map.2 (List.sorted_insertionSort valueDesc (categoryTotals es))
  · rw [topCategory, scenario_breakdown_eval]
    rfl

/-- C1 witness: the grouping clause of the theorem instantiated on the
scenario list at index 0. -/
theorem categoryBreakdown_correct_witness :
    0 < (getCategoryData scenarioExpenses).labels.length
    ∧ (getCategoryData scenarioExpenses).data.getD 0 0
        = categoryValue scenarioExpenses
            ((getCategoryData scenarioExpenses).labels.getD 0 "") :=
  ⟨by simp [scenario_breakdown_eval],
    categoryBreakdown_correct.1 scenarioExpenses 0 (by simp [scenario_breakdown_eval])⟩

/-- C7: for every list of expenses the sum of the category-bucketed totals
equals the sum of all expense amounts, in exact rational arithmetic. -/
theorem bucketed_totals_sum (es : List Expense) :
    (getCategoryData es).data.sum = (es.map Expense.amount).sum :=
  data_sum_eq_total_amount es

/-- C10: for every list of expenses the labels of the category breakdown are
pairwise distinct and are exactly the categories occurring in the input, and
the dashboard spending chart computes the same labels. -/
theorem breakdown_labels_exact (es : List Expense) :
    (getCategoryData es).labels.Nodup
    ∧ (∀ c : String, c ∈ (getCategoryData es).labels ↔ ∃ e ∈ es, e.category = c)
    ∧ (getCategoryDataDashboard es).1 = (getCategoryData es).labels := by
  refine ⟨?_, fun c => ?_, rfl⟩
  · rw [getCategoryData_labels]
    exact sorted_keys_nodup es
  · rw [getCategoryData_labels]
    exact mem_sorted_keys es c

/-- Sum of amounts of the expenses falling in calendar month m (the filter
`expenseDate.getMonth() === d.getMonth() && expenseDate.getFullYear() ===
d.getFullYear()` followed by the reduce over amounts). -/
def monthlyTotal (es : List Expense) (m : Int) : Rat :=
  ((es.filter (fun e => monthIndex e.date = m)).map Expense.amount).sum

/-- The monthlyTotals array of getMonthlyData: the loop runs i from
monthsToShow - 1 down to 0 pushing the total of month (today - i), so entry
j holds the total of month today - (monthsToShow - 1 - j), oldest first. -/
def monthlyTotalsSeq (es : List Expense) (today : Int) (monthsToShow : Nat) : List Rat :=
  (List.range monthsToShow).map
    (fun (j : Nat) => monthlyTotal es (today - ((monthsToShow : Int) - 1 - (j : Int))))

/-- Result record of getMonthlyData in insights-charts.tsx (labels, the
month-name strings, are presentation only and omitted). -/
structure MonthlyData where
  data : List Rat
  change : Rat
  changePercentage : Int
  deriving DecidableEq, Repr

/-- getMonthlyData of insights-charts.tsx: the trailing monthly totals plus
the month-over-month change, computed only when at least two months are
shown and the previous month total is positive. -/
def getMonthlyData (es : List Expense) (today : Int) (monthsToShow : Nat) : MonthlyData :=
  let monthlyTotals := monthlyTotalsSeq es today monthsToShow
  if 2 ≤ monthlyTotals.length then
    let currentMonth := monthlyTotals.getD (monthlyTotals.length - 1) 0
    let previousMonth := monthlyTotals.getD (monthlyTotals.length - 2) 0
    if 0 < previousMonth then
      { data := monthlyTotals, change := currentMonth - previousMonth,
        changePercentage := round ((currentMonth - previousMonth) / previousMonth * 100) }
    else
      { data := monthlyTotals, change := 0, changePercentage := 0 }
  else
    { data := monthlyTotals, change := 0, changePercentage := 0 }

/-- The spendingDifference of SummaryCards: the raw percentage change,
guarded by JavaScript truthiness of the previous month total. -/
def spendingDifference (es : List Expense) (today : Int) : Rat :=
  if monthlyTotal es (today - 1) ≠ 0 then
    (monthlyTotal es today - monthlyTotal es (today - 1)) / monthlyTotal es (today - 1) * 100
  else 0

/-- Total spent on weekday d (0 = Sunday .. 6 = Saturday): the
weekdayTotals bucket of getWeekdayData. -/
def weekdayTotal (es : List Expense) (d : Nat) : Rat :=
  ((es.filter (fun e => (e.date.wday : Nat) = d)).map Expense.amount).sum

/-- Number of expenses on weekday d: the weekdayCounts bucket. -/
def weekdayCount (es : List Expense) (d : Nat) : Nat :=
  (es.filter (fun e => (e.date.wday : Nat) = d)).length

/-- Average spending on weekday d: bucket total over bucket count, 0 for an
empty bucket. -/
def weekdayAvg (es : List Expense) (d : Nat) : Rat :=
  if 0 < weekdayCount es d then weekdayTotal es d / (weekdayCount es d : Rat) else 0

/-- The weekdayAverages array of getWeekdayData, indexed Sunday first. -/
def weekdayAverages (es : List Expense) : List Rat :=
  (List.range 7).map (weekdayAvg es)

/-- One step of the highest-so-far loops: update on strict improvement of
the numeric component, as in `if (avg > highestAvg)` of getWeekdayData and
`if (amount > topCategoryAmount)` of SummaryCards. -/
def bestStep {α : Type} (acc p : α × Rat) : α × Rat := if p.2 > acc.2 then p else acc

/-- Result record of getWeekdayData in insights-charts.tsx.  highestDay is
kept as the index into the Sunday-first weekday array (the source renders
weekdays[highestDay]; index 0 is Sunday). -/
structure WeekdayData where
  data : List Rat
  highestDay : Nat
  highestAvg : Rat
  deriving DecidableEq, Repr

/-- getWeekdayData of insights-charts.tsx: weekday averages plus the
highest-average day found by the forEach loop starting from
highestDay = 0, highestAvg = 0. -/
def getWeekdayData (es : List Expense) : WeekdayData :=
  let avgs := weekdayAverages es
  let best := avgs.enum.foldl bestStep (0, 0)
  { data := avgs, highestDay := best.1, highestAvg := best.2 }

/-- The top spending category of SummaryCards: the strict-improvement loop
over the current-month category totals, starting from the empty-string
category with amount 0. -/
def summaryTopCategory (es : List Expense) (today : Int) : String × Rat :=
  (categoryTotals (es.filter (fun e => monthIndex e.date = today))).foldl bestStep ("", 0)

/-- A goal record as read by the aggregation in SummaryCards and GoalCard. -/
structure GoalRec where
  userId : Nat
  name : String
  targetAmount : Rat
  currentAmount : Rat
  status : String
  deriving DecidableEq, Repr

/-- The goalsProgress of SummaryCards: aggregate percentage of all goals,
guarded against a non-positive target sum. -/
def goalsProgress (gs : List GoalRec) : Int :=
  if 0 < (gs.map GoalRec.targetAmount).sum then
    round ((gs.map GoalRec.currentAmount).sum / (gs.map GoalRec.targetAmount).sum * 100)
  else 0

theorem monthlyTotalsSeq_length (es : List Expense) (today : Int) (n : Nat) :
    (monthlyTotalsSeq es today n).length = n := by
  rw [monthlyTotalsSeq, List.length_map, List.length_range]

theorem monthlyTotalsSeq_getD (es : List Expense) (today : Int) (n j : Nat) (hj : j < n) :
    (monthlyTotalsSeq es today n).getD j 0
      = monthlyTotal es (today - ((n : Int) - 1 - (j : Int))) := by
  have hj2 : j < (monthlyTotalsSeq es today n).length := by
    rw [monthlyTotalsSeq_length]
    exact hj
  rw [List.getD_eq_getElem _ _ hj2]
  simp only [monthlyTotalsSeq, List.getElem_map, List.getElem_range]

theorem monthlyTotalsSeq_last (es : List Expense) (today : Int) (n : Nat) (h : 1 ≤ n) :
    (monthlyTotalsSeq es today n).getD (n - 1) 0 = monthlyTotal es today := by
  rw [monthlyTotalsSeq_getD es today n (n - 1) (by omega)]
  congr 1
  omega

theorem monthlyTotalsSeq_prev (es : List Expense) (today : Int) (n : Nat) (h : 2 ≤ n) :
    (monthlyTotalsSeq es today n).getD (n - 2) 0 = monthlyTotal es (today - 1) := by
  rw [monthlyTotalsSeq_getD es today n (n - 2) (by omega)]
  congr 1
  omega

theorem getMonthlyData_changePercentage (es : List Expense) (today : Int) (n : Nat)
    (h2 : 2 ≤ n) :
    (getMonthlyData es today n).changePercentage
      = if 0 < monthlyTotal es (today - 1) then
          round ((monthlyTotal es today - monthlyTotal es (today - 1))
            / monthlyTotal es (today - 1) * 100)
        else 0 := by
  simp only [getMonthlyData, monthlyTotalsSeq_length, if_pos h2,
    monthlyTotalsSeq_last es today n (by omega), monthlyTotalsSeq_prev es today n h2]
  by_cases hp : 0 < monthlyTotal es (today - 1)
  · rw [if_pos hp, if_pos hp]
  · rw [if_neg hp, if_neg hp]

/-- C5: with at least two months shown, the month-over-month comparison of
getMonthlyData yields changePercentage 0 whenever the previous calendar
month's total is 0, regardless of the current month's total, and
round((current - previous) / previous * 100) whenever the previous month's
total is positive; the SummaryCards spendingDifference is likewise 0 when
the previous month's total is 0. -/
theorem monthOverMonth_change (es : List Expense) (today : Int) (n : Nat) (h : 2 ≤ n) :
    (monthlyTotal es (today - 1) = 0 →
      (getMonthlyData es today n).changePercentage = 0
      ∧ spendingDifference es today = 0)
    ∧ (0 < monthlyTotal es (today - 1) →
      (getMonthlyData es today n).changePercentage
        = round ((monthlyTotal es today - monthlyTotal es (today - 1))
            / monthlyTotal es (today - 1) * 100)) := by
  constructor
  · intro h0
    constructor
    · rw [getMonthlyData_changePercentage es today n h, h0]
      norm_num
    · rw [spendingDifference, h0]
      simp
  · intro hp
    rw [getMonthlyData_changePercentage es today n h, if_pos hp]

/-- C5 witness: the zero-previous-month clause at the empty list with three
months shown. -/
theorem monthOverMonth_change_witness :
    (getMonthlyData [] 0 3).changePercentage = 0 ∧ spendingDifference [] 0 = 0 :=
  (monthOverMonth_change [] 0 3 (by norm_num)).1 rfl

theorem monthlyTotal_nil (m : Int) : monthlyTotal [] m = 0 := rfl

theorem monthlyTotalsSeq_nil (today : Int) (n : Nat) :
    monthlyTotalsSeq [] today n = List.replicate n 0 := by
  unfold monthlyTotalsSeq
  rw [show (fun (j : Nat) => monthlyTotal [] (today - ((n : Int) - 1 - (j : Int))))
      = fun (_ : Nat) => (0 : Rat) from funext (fun j => rfl)]
  rw [List.map_const', List.length_range]

theorem getD_replicate_zero (n i : Nat) : (List.replicate n (0 : Rat)).getD i 0 = 0 := by
  by_cases h : i < n
  · rw [List.getD_eq_getElem _ _ (by simpa using h), List.getElem_replicate]
  · rw [List.getD_eq_default _ _ (by simpa using Nat.le_of_not_lt h)]

theorem getMonthlyData_nil (today : Int) (n : Nat) :
    getMonthlyData [] today n
      = { data := List.replicate n 0, change := 0, changePercentage := 0 } := by
  simp only [getMonthlyData, monthlyTotalsSeq_nil]
  by_cases h2 : 2 ≤ (List.replicate n (0 : Rat)).length
  · rw [if_pos h2, getD_replicate_zero, if_neg (lt_irrefl 0)]
  · rw [if_neg h2]

theorem getWeekdayData_nil :
    getWeekdayData []
      = { data := List.replicate 7 0, highestDay := 0, highestAvg := 0 } := by
  decide

/-- C6: every aggregation applied to the empty expense list returns zero
totals or empty sequences and no top category: the category breakdown is
empty with total 0, the monthly trend is all zeros with zero change, the
weekday analysis reports all-zero averages with Sunday (index 0) and
average 0, the month-over-month difference is 0, the SummaryCards top
category is the empty placeholder, and the aggregate goals progress of an
empty goal list is 0; all of these are total functions, so no division by
zero or error can occur. -/
theorem empty_list_aggregates (today : Int) (n : Nat) :
    monthlyTotal [] today = 0
    ∧ getCategoryData [] = { labels := [], data := [], percentages := [], total := 0 }
    ∧ topCategory [] = none
    ∧ getMonthlyData [] today n
        = { data := List.replicate n 0, change := 0, changePercentage := 0 }
    ∧ getWeekdayData []
        = { data := List.replicate 7 0, highestDay := 0, highestAvg := 0 }
    ∧ spendingDifference [] today = 0
    ∧ summaryTopCategory [] today = ("", 0)
    ∧ goalsProgress [] = 0 := by
  refine ⟨rfl, rfl, rfl, getMonthlyData_nil today n, getWeekdayData_nil, ?_, rfl, ?_⟩
  · rw [spendingDifference, monthlyTotal_nil]
    simp
  · rw [goalsProgress]
    norm_num

theorem bestFold_spec (l : List Rat) (k : Nat) (acc : Nat × Rat) (hacc : acc.1 ≤ k) :
    ((List.enumFrom k l).foldl bestStep acc = acc
      ∨ ∃ j, j < l.length
          ∧ ((List.enumFrom k l).foldl bestStep acc).1 = k + j
          ∧ ((List.enumFrom k l).foldl bestStep acc).2 = l.getD j 0
          ∧ acc.2 < ((List.enumFrom k l).foldl bestStep acc).2)
    ∧ (∀ j, j < l.length → l.getD j 0 ≤ ((List.enumFrom k l).foldl bestStep acc).2)
    ∧ acc.2 ≤ ((List.enumFrom k l).foldl bestStep acc).2
    ∧ (∀ j, j < l.length → k + j < ((List.enumFrom k l).foldl bestStep acc).1 →
        l.getD j 0 < ((List.enumFrom k l).foldl bestStep acc).2) := by
  induction l generalizing k acc with
  | nil =>
      refine ⟨Or.inl rfl, ?_, le_refl _, ?_⟩
      · intro j hj
        exact absurd hj (Nat.not_lt_zero j)
      · intro j hj
        exact absurd hj (Nat.not_lt_zero j)
  | cons a t ih =>
      have hstep : List.enumFrom k (a :: t) = (k, a) :: List.enumFrom (k + 1) t := rfl
      rw [hstep, List.foldl_cons]
      by_cases hcmp : a > acc.2
      · have hb : bestStep acc (k, a) = (k, a) := by
          rw [bestStep]
          exact if_pos hcmp
        rw [hb]
        obtain ⟨h1, h2, h3, h4⟩ := ih (k + 1) (k, a) (Nat.le_succ k)
        set r := (List.enumFrom (k + 1) t).foldl bestStep (k, a) with hr
        refine ⟨?_, ?_, le_trans (le_of_lt hcmp) h3, ?_⟩
        · rcases h1 with h1 | ⟨j, hj, hj1, hj2, hj3⟩
          · refine Or.inr ⟨0, Nat.succ_pos _, ?_, ?_, ?_⟩
            · rw [h1, Nat.add_zero]
            · rw [h1, List.getD_cons_zero]
            · rw [h1]
              exact hcmp
          · refine Or.inr ⟨j + 1, Nat.succ_lt_succ hj, ?_, ?_, lt_trans hcmp hj3⟩
            · rw [hj1]
              omega
            · rw [hj2, List.getD_cons_succ]
        · intro j hj
          cases j with
          | zero =>
              rw [List.getD_cons_zero]
              exact h3
          | succ j1 =>
              rw [List.getD_cons_succ]
              exact h2 j1 (Nat.lt_of_succ_lt_succ hj)
        · intro j hj hlt
          cases j with
          | zero =>
              rw [Nat.add_zero] at hlt
              rcases h1 with h1 | ⟨j1, hj1, hj2, hj3, hj4⟩
              · rw [h1] at hlt
                exact absurd hlt (lt_irrefl k)
              · rw [List.getD_cons_zero]
                exact hj4
          | succ j1 =>
              rw [List.getD_cons_succ]
              exact h4 j1 (Nat.lt_of_succ_lt_succ hj) (by omega)
      · have hb : bestStep acc (k, a) = acc := by
          rw [bestStep]
          exact if_neg hcmp
        rw [hb]
        obtain ⟨h1, h2, h3, h4⟩ := ih (k + 1) acc (Nat.le_succ_of_le hacc)
        set r := (List.enumFrom (k + 1) t).foldl bestStep acc with hr
        have hle : a ≤ acc.2 := not_lt.1 hcmp
        refine ⟨?_, ?_, h3, ?_⟩
        · rcases h1 with h1 | ⟨j, hj, hj1, hj2, hj3⟩
          · exact Or.inl h1
          · refine Or.inr ⟨j + 1, Nat.succ_lt_succ hj, ?_, ?_, hj3⟩
            · rw [hj1]
              omega
            · rw [hj2, List.getD_cons_succ]
        · intro j hj
          cases j with
          | zero =>
              rw [List.getD_cons_zero]
              exact le_trans hle h3
          | succ j1 =>
              rw [List.getD_cons_succ]
              exact h2 j1 (Nat.lt_of_succ_lt_succ hj)
        · intro j hj hlt
          cases j with
          | zero =>
              rw [Nat.add_zero] at hlt
              rcases h1 with h1 | ⟨j1, hj1, hj2, hj3, hj4⟩
              · rw [h1] at hlt
                exact absurd hlt (Nat.not_lt.2 hacc)
              · rw [List.getD_cons_zero]
                exact lt_of_le_of_lt hle hj4
          | succ j1 =>
              rw [List.getD_cons_succ]
              exact h4 j1 (Nat.lt_of_succ_lt_succ hj) (by omega)

theorem weekdayAverages_length (es : List Expense) : (weekdayAverages es).length = 7 := by
  rw [weekdayAverages, List.length_map, List.length_range]

theorem weekdayAverages_getD (es : List Expense) (j : Nat) (hj : j < 7) :
    (weekdayAverages es).getD j 0 = weekdayAvg es j := by
  have hj2 : j < (weekdayAverages es).length := by
    rw [weekdayAverages_length]
    exact hj
  rw [List.getD_eq_getElem _ _ hj2]
  simp only [weekdayAverages, List.getElem_map, List.getElem_range]

theorem weekdayAvg_nonneg (es : List Expense) (hpos : ∀ e ∈ es, 0 ≤ e.amount) (d : Nat) :
    0 ≤ weekdayAvg es d := by
  rw [weekdayAvg]
  by_cases h : 0 < weekdayCount es d
  · rw [if_pos h]
    apply div_nonneg
    · apply List.sum_nonneg
      intro x hx
      obtain ⟨e, he, rfl⟩ := List.mem_map.1 hx
      exact hpos e (List.mem_of_mem_filter he)
    · exact Nat.cast_nonneg _
  · rw [if_neg h]

/-- C9: the reported highest-average weekday of getWeekdayData is the
earliest index (Sunday-first order, 0 = Sunday .. 6 = Saturday) attaining
the maximum weekday average: the index is below 7, its average equals
highestAvg, no average exceeds highestAvg, every strictly earlier index has
a strictly smaller average; for the empty list, and whenever every weekday
average is 0, index 0 (Sunday) with average 0 is reported.
Amount nonnegativity reflects the amount > 0 record invariant. -/
theorem weekday_highest (es : List Expense) (hpos : ∀ e ∈ es, 0 ≤ e.amount) :
    (getWeekdayData es).highestDay < 7
    ∧ (weekdayAverages es).getD (getWeekdayData es).highestDay 0
        = (getWeekdayData es).highestAvg
    ∧ (∀ j, j < 7 → (weekdayAverages es).getD j 0 ≤ (getWeekdayData es).highestAvg)
    ∧ (∀ j, j < (getWeekdayData es).highestDay →
        (weekdayAverages es).getD j 0 < (getWeekdayData es).highestAvg)
    ∧ (es = [] → getWeekdayData es
        = { data := List.replicate 7 0, highestDay := 0, highestAvg := 0 })
    ∧ ((∀ j, j < 7 → (weekdayAverages es).getD j 0 = 0) →
        (getWeekdayData es).highestDay = 0 ∧ (getWeekdayData es).highestAvg = 0) := by
  obtain ⟨h1, h2, h3, h4⟩ := bestFold_spec (weekdayAverages es) 0 (0, 0) (le_refl 0)
  have hD : (getWeekdayData es).highestDay
      = ((List.enumFrom 0 (weekdayAverages es)).foldl bestStep (0, 0)).1 := rfl
  have hA : (getWeekdayData es).highestAvg
      = ((List.enumFrom 0 (weekdayAverages es)).foldl bestStep (0, 0)).2 := rfl
  set r := (List.enumFrom 0 (weekdayAverages es)).foldl bestStep (0, 0) with hr
  have hlen : (weekdayAverages es).length = 7 := weekdayAverages_length es
  have hday : (getWeekdayData es).highestDay < 7 := by
    rcases h1 with h1 | ⟨j, hj, hj1, hj2, hj3⟩
    · rw [hD, h1]
      norm_num
    · rw [hD, hj1, Nat.zero_add]
      rw [hlen] at hj
      exact hj
  refine ⟨hday, ?_, ?_, ?_, ?_, ?_⟩
  · rcases h1 with h1 | ⟨j, hj, hj1, hj2, hj3⟩
    · rw [hD, hA, h1]
      have hub : (weekdayAverages es).getD 0 0 ≤ (0 : Rat) := by
        have := h2 0 (by omega)
        rw [h1] at this
        exact this
      have hlb : (0 : Rat) ≤ (weekdayAverages es).getD 0 0 := by
        rw [weekdayAverages_getD es 0 (by norm_num)]
        exact weekdayAvg_nonneg es hpos 0
      exact le_antisymm hub hlb
    · rw [hD, hA, hj1, Nat.zero_add, hj2]
  · intro j hj
    rw [hA]
    exact h2 j (by omega)
  · intro j hj
    rw [hA]
    rw [hD] at hj
    refine h4 j (by omega) ?_
    rw [Nat.zero_add]
    exact hj
  · intro he
    rw [he]
    exact getWeekdayData_nil
  · intro h0
    rcases h1 with h1 | ⟨j, hj, hj1, hj2, hj3⟩
    · constructor
      · rw [hD, h1]
      · rw [hA, h1]
    · exfalso
      rw [hj2, h0 j (by omega)] at hj3
      exact lt_irrefl 0 hj3

/-- C9 witness: the theorem instantiated on the empty expense list. -/
theorem weekday_highest_witness :
    (getWeekdayData []).highestDay < 7
    ∧ getWeekdayData []
        = { data := List.replicate 7 0, highestDay := 0, highestAvg := 0 } := by
  have h := weekday_highest [] (by simp)
  exact ⟨h.1, h.2.2.2.2.1 rfl⟩

theorem round_sum_bound (l : List Rat) :
    |(((l.map (fun v => round v)).sum : Int) : Rat) - l.sum| ≤ (l.length : Rat) / 2 := by
  induction l with
  | nil => simp
  | cons v t ih =>
      simp only [List.map_cons, List.sum_cons, List.length_cons, Nat.cast_add,
        Nat.cast_one, Int.cast_add]
      have h1 : |((round v : Int) : Rat) - v| ≤ 1 / 2 := by
        rw [abs_sub_comm]
        exact abs_sub_round v
      have h2 : ((round v : Int) : Rat) + ((t.map (fun v => round v)).sum : Int) - (v + t.sum)
          = (((round v : Int) : Rat) - v)
            + ((((t.map (fun v => round v)).sum : Int) : Rat) - t.sum) := by
        ring
      rw [h2]
      calc |(((round v : Int) : Rat) - v)
            + ((((t.map (fun v => round v)).sum : Int) : Rat) - t.sum)|
          ≤ |((round v : Int) : Rat) - v|
            + |(((t.map (fun v => round v)).sum : Int) : Rat) - t.sum| := abs_add _ _
        _ ≤ 1 / 2 + (t.length : Rat) / 2 := add_le_add h1 ih
        _ = ((t.length : Rat) + 1) / 2 := by ring

theorem sum_map_div_mul (l : List Rat) (t : Rat) :
    (l.map (fun v => v / t * 100)).sum = l.sum / t * 100 := by
  induction l with
  | nil => simp
  | cons v r ih =>
      simp only [List.map_cons, List.sum_cons, ih]
      ring

/-- C8: for every non-empty list of expenses with positive amounts, the sum
of the rounded per-category percentages of the category breakdown differs
from 100 by at most the number of distinct categories occurring in the
list (the number of labels). -/
theorem percentages_sum_near_100 (es : List Expense) (hne : es ≠ [])
    (hpos : ∀ e ∈ es, 0 < e.amount) :
    |(getCategoryData es).percentages.sum - 100|
      ≤ ((getCategoryData es).labels.length : Int) := by
  have htot : 0 < (getCategoryData es).total := by
    rw [getCategoryData_total, data_sum_eq_total_amount]
    apply List.sum_pos
    · intro x hx
      obtain ⟨e, he, rfl⟩ := List.mem_map.1 hx
      exact hpos e he
    · simpa using hne
  have hdsum : (getCategoryData es).data.sum = (getCategoryData es).total :=
    (getCategoryData_total es).symm
  have hperc : (getCategoryData es).percentages
      = (((getCategoryData es).data.map
          (fun v => v / (getCategoryData es).total * 100)).map (fun x => round x)) := by
    rw [getCategoryData_percentages, List.map_map]
    rfl
  have hsum100 : ((getCategoryData es).data.map
      (fun v => v / (getCategoryData es).total * 100)).sum = 100 := by
    rw [sum_map_div_mul, hdsum, div_self (ne_of_gt htot)]
    norm_num
  have hbound := round_sum_bound
    ((getCategoryData es).data.map (fun v => v / (getCategoryData es).total * 100))
  rw [hsum100, List.length_map] at hbound
  have hlen : (getCategoryData es).labels.length = (getCategoryData es).data.length := by
    rw [getCategoryData_labels, getCategoryData_data, List.length_map, List.length_map]
  have hQ : |(((getCategoryData es).percentages.sum : Int) : Rat) - 100|
      ≤ (((getCategoryData es).labels.length : Int) : Rat) := by
    rw [hperc, hlen]
    refine le_trans hbound ?_
    push_cast
    have : (0 : Rat) ≤ ((getCategoryData es).data.length : Rat) := Nat.cast_nonneg _
    linarith
  exact_mod_cast hQ

/-- C8 witness: the bound instantiated on the scenario list, where the
percentage sum is exactly 100 and there are two labels. -/
theorem percentages_sum_near_100_witness :
    |(getCategoryData scenarioExpenses).percentages.sum - 100|
      ≤ ((getCategoryData scenarioExpenses).labels.length : Int) :=
  percentages_sum_near_100 scenarioExpenses
    (by unfold scenarioExpenses; exact List.cons_ne_nil _ _)
    (by decide)

/-- HTTP statuses produced by the modelled route handlers. -/
inductive RouteStatus where
  | ok
  | created
  | noContent
  | badRequest
  | forbidden
  | notFound
  deriving DecidableEq, Repr

/-- An expense row of the relational store, as read back by the server. -/
structure StoredExpense where
  id : Nat
  userId : Nat
  amount : Rat
  category : String
  date : EDate
  deriving DecidableEq, Repr

/-- A goal row of the relational store. -/
structure StoredGoal where
  id : Nat
  userId : Nat
  name : String
  targetAmount : Rat
  currentAmount : Rat
  status : String
  deriving DecidableEq, Repr

/-- storage.getExpenseById: select the row with the given id. -/
def getExpenseById (db : List StoredExpense) (i : Nat) : Option StoredExpense :=
  db.find? (fun e => e.id = i)

/-- storage.getGoalById: select the row with the given id. -/
def getGoalById (db : List StoredGoal) (i : Nat) : Option StoredGoal :=
  db.find? (fun g => g.id = i)

/-- The PUT /api/expenses/:id request body (a partial row: absent fields
are left unchanged by the ORM set).  Only the fields relevant to the
claims are modelled.  No validation is applied to it by the route. -/
structure ExpenseUpdate where
  amount : Option Rat
  category : Option String
  deriving DecidableEq, Repr

/-- The PUT /api/goals/:id request body (partial row). -/
structure GoalUpdate where
  currentAmount : Option Rat
  status : Option String
  deriving DecidableEq, Repr

/-- storage.updateExpense: set the provided fields on the row with the
given id, leaving other rows untouched. -/
def updateExpenseStore (db : List StoredExpense) (i : Nat) (b : ExpenseUpdate) :
    List StoredExpense :=
  db.map (fun e =>
    if e.id = i then
      { e with amount := b.amount.getD e.amount, category := b.category.getD e.category }
    else e)

/-- storage.updateGoal: set the provided fields on the row with the given
id. -/
def updateGoalStore (db : List StoredGoal) (i : Nat) (b : GoalUpdate) : List StoredGoal :=
  db.map (fun g =>
    if g.id = i then
      { g with currentAmount := b.currentAmount.getD g.currentAmount,
               status := b.status.getD g.status }
    else g)

/-- storage.deleteExpense: remove the rows with the given id. -/
def deleteExpenseStore (db : List StoredExpense) (i : Nat) : List StoredExpense :=
  db.filter (fun e => e.id ≠ i)

/-- storage.deleteGoal: remove the rows with the given id. -/
def deleteGoalStore (db : List StoredGoal) (i : Nat) : List StoredGoal :=
  db.filter (fun g => g.id ≠ i)

/-- PUT /api/expenses/:id of routes.ts for an authenticated session user u:
load the record (404 when absent), check ownership (403 on mismatch), then
pass the body unvalidated to storage.updateExpense.  The pair returned is
the response status and the resulting store. -/
def putExpenseRoute (db : List StoredExpense) (u : Nat) (i : Nat) (body : ExpenseUpdate) :
    RouteStatus × List StoredExpense :=
  match getExpenseById db i with
  | none => (RouteStatus.notFound, db)
  | some e =>
      if e.userId ≠ u then (RouteStatus.forbidden, db)
      else (RouteStatus.ok, updateExpenseStore db i body)

/-- DELETE /api/expenses/:id of routes.ts: load, check ownership, delete. -/
def deleteExpenseRoute (db : List StoredExpense) (u : Nat) (i : Nat) :
    RouteStatus × List StoredExpense :=
  match getExpenseById db i with
  | none => (RouteStatus.notFound, db)
  | some e =>
      if e.userId ≠ u then (RouteStatus.forbidden, db)
      else (RouteStatus.noContent, deleteExpenseStore db i)

/-- PUT /api/goals/:id of routes.ts: load, check ownership, update with the
unvalidated body. -/
def putGoalRoute (db : List StoredGoal) (u : Nat) (i : Nat) (body : GoalUpdate) :
    RouteStatus × List StoredGoal :=
  match getGoalById db i with
  | none => (RouteStatus.notFound, db)
  | some g =>
      if g.userId ≠ u then (RouteStatus.forbidden, db)
      else (RouteStatus.ok, updateGoalStore db i body)

/-- DELETE /api/goals/:id of routes.ts: load, check ownership, delete. -/
def deleteGoalRoute (db : List StoredGoal) (u : Nat) (i : Nat) :
    RouteStatus × List StoredGoal :=
  match getGoalById db i with
  | none => (RouteStatus.notFound, db)
  | some g =>
      if g.userId ≠ u then (RouteStatus.forbidden, db)
      else (RouteStatus.noContent, deleteGoalStore db i)

/-- C2: for every update or delete on an expense or goal: a missing record
yields a 404 response with the store unchanged (the existence check runs
first, so the outcome for a missing record never depends on ownership), and
an existing record owned by a different user yields a 403 response with the
store unchanged, so no mutation reaches the data layer. -/
theorem ownership_enforced (dbE : List StoredExpense) (dbG : List StoredGoal)
    (u i : Nat) (bE : ExpenseUpdate) (bG : GoalUpdate) :
    (getExpenseById dbE i = none →
      putExpenseRoute dbE u i bE = (RouteStatus.notFound, dbE)
      ∧ deleteExpenseRoute dbE u i = (RouteStatus.notFound, dbE))
    ∧ (∀ e, getExpenseById dbE i = some e → e.userId ≠ u →
      putExpenseRoute dbE u i bE = (RouteStatus.forbidden, dbE)
      ∧ deleteExpenseRoute dbE u i = (RouteStatus.forbidden, dbE))
    ∧ (getGoalById dbG i = none →
      putGoalRoute dbG u i bG = (RouteStatus.notFound, dbG)
      ∧ deleteGoalRoute dbG u i = (RouteStatus.notFound, dbG))
    ∧ (∀ g, getGoalById dbG i = some g → g.userId ≠ u →
      putGoalRoute dbG u i bG = (RouteStatus.forbidden, dbG)
      ∧ deleteGoalRoute dbG u i = (RouteStatus.forbidden, dbG)) := by
  refine ⟨fun h => ⟨?_, ?_⟩, fun e he hne => ⟨?_, ?_⟩, fun h => ⟨?_, ?_⟩,
    fun g hg hne => ⟨?_, ?_⟩⟩
  · rw [putExpenseRoute, h]
  · rw [deleteExpenseRoute, h]
  · rw [putExpenseRoute, he]
    simp [hne]
  · rw [deleteExpenseRoute, he]
    simp [hne]
  · rw [putGoalRoute, h]
  · rw [deleteGoalRoute, h]
  · rw [putGoalRoute, hg]
    simp [hne]
  · rw [deleteGoalRoute, hg]
    simp [hne]

/-- A one-row expense store used to instantiate the route theorems. -/
def expense1 : StoredExpense :=
  { id := 1, userId := 1, amount := 5, category := "Food", date := dateT0 }

/-- A one-row goal store used to instantiate the route theorems. -/
def goal1 : StoredGoal :=
  { id := 1, userId := 1, name := "Trip", targetAmount := 100,
    currentAmount := 10, status := "in_progress" }

def dbE1 : List StoredExpense := [expense1]

def dbG1 : List StoredGoal := [goal1]

/-- C2 witness: user 2 updating user 1's expense gets 403 with the store
untouched, and updating a missing goal id gets 404. -/
theorem ownership_enforced_witness :
    putExpenseRoute dbE1 2 1 { amount := none, category := none }
      = (RouteStatus.forbidden, dbE1)
    ∧ putGoalRoute dbG1 2 5 { currentAmount := none, status := none }
      = (RouteStatus.notFound, dbG1) :=
  ⟨((ownership_enforced dbE1 dbG1 2 1 { amount := none, category := none }
      { currentAmount := none, status := none }).2.1 expense1
      (by decide) (by decide)).1,
    ((ownership_enforced dbE1 dbG1 2 5 { amount := none, category := none }
      { currentAmount := none, status := none }).2.2.1 (by decide)).1⟩

/-- The POST /api/expenses request body after the route's preprocessing
(a string amount has been parseFloat-ed into a number): amount holds the
resulting number, or none when parsing produced NaN (which z.number()
rejects).  The category is the raw request string. -/
structure ExpenseInput where
  amount : Option Rat
  category : String
  date : EDate
  deriving DecidableEq, Repr

/-- insertExpenseSchema of shared/schema.ts applied to a preprocessed body:
the numeric branch of the amount union requires amount ≥ 0.01
(z.number().min(0.01)); the category field is kept as plain text with no
membership constraint. -/
def insertExpenseSchemaCheck (inp : ExpenseInput) : Bool :=
  match inp.amount with
  | none => false
  | some q => decide ((1 : Rat) / 100 ≤ q)

/-- The fixed category set EXPENSE_CATEGORIES of shared/schema.ts; it is
used by the client forms but never referenced by the server-side schema
validation. -/
def EXPENSE_CATEGORIES : List String :=
  ["Food", "Transport", "Entertainment", "Shopping", "Health", "Bills", "Other"]

/-- POST /api/expenses of routes.ts: parse with insertExpenseSchema
(ZodError becomes 400) and create the row. -/
def postExpenseRoute (db : List StoredExpense) (u : Nat) (nextId : Nat)
    (inp : ExpenseInput) : RouteStatus × List StoredExpense :=
  if insertExpenseSchemaCheck inp then
    (RouteStatus.created,
      db ++ [{ id := nextId, userId := u, amount := inp.amount.getD 0,
               category := inp.category, date := inp.date }])
  else (RouteStatus.badRequest, db)

/-- C3 counterexample: POST /api/expenses accepts a category outside the
fixed set (the schema never inspects the category), and PUT
/api/expenses/:id applies an update carrying a negative amount and an
out-of-set category without any validation, so the claimed invariant is not
enforced by the code. -/
theorem expense_validation_counterexample :
    insertExpenseSchemaCheck { amount := some 5, category := "Gambling", date := dateT0 }
      = true
    ∧ "Gambling" ∉ EXPENSE_CATEGORIES
    ∧ putExpenseRoute dbE1 1 1 { amount := some (-5), category := some "Gambling" }
        = (RouteStatus.ok,
           [{ id := 1, userId := 1, amount := -5, category := "Gambling",
              date := dateT0 }]) := by
  refine ⟨?_, by decide, ?_⟩
  · rw [insertExpenseSchemaCheck]
    norm_num
  · rw [putExpenseRoute]
    rw [show getExpenseById dbE1 1 = some expense1 from by decide]
    norm_num [updateExpenseStore, dbE1, expense1, dateT0]

/-- C3 amended: only creation validates, and only the amount: POST
/api/expenses accepts a preprocessed input iff its amount is a number q
with q ≥ 0.01 (hence every accepted expense has a positive amount), with
no constraint on the category; PUT /api/expenses/:id performs no
validation and forwards the body unchanged to the data layer for any
existing record owned by the session user. -/
theorem expense_validation_amended :
    (∀ inp : ExpenseInput,
      insertExpenseSchemaCheck inp = true
        ↔ ∃ q : Rat, inp.amount = some q ∧ (1 : Rat) / 100 ≤ q)
    ∧ (∀ inp : ExpenseInput, insertExpenseSchemaCheck inp = true →
        ∃ q : Rat, inp.amount = some q ∧ 0 < q)
    ∧ (∀ (db : List StoredExpense) (u i : Nat) (b : ExpenseUpdate) (e : StoredExpense),
        getExpenseById db i = some e → e.userId = u →
        putExpenseRoute db u i b = (RouteStatus.ok, updateExpenseStore db i b)) := by
  have hiff : ∀ inp : ExpenseInput,
      insertExpenseSchemaCheck inp = true
        ↔ ∃ q : Rat, inp.amount = some q ∧ (1 : Rat) / 100 ≤ q := by
    intro inp
    rw [insertExpenseSchemaCheck]
    cases hin : inp.amount with
    | none => simp
    | some q => simp
  refine ⟨hiff, fun inp h => ?_, fun db u i b e he hu => ?_⟩
  · obtain ⟨q, hq, hge⟩ := (hiff inp).1 h
    refine ⟨q, hq, lt_of_lt_of_le (by norm_num) hge⟩
  · rw [putExpenseRoute, he]
    simp [hu]

/-- C3 amended-claim witness: the PUT pass-through clause instantiated on
the one-row store, and the acceptance rule at a concrete input. -/
theorem expense_validation_amended_witness :
    putExpenseRoute dbE1 1 1 { amount := some 7, category := some "Bills" }
      = (RouteStatus.ok, updateExpenseStore dbE1 1 { amount := some 7, category := some "Bills" }) :=
  expense_validation_amended.2.2 dbE1 1 1
    { amount := some 7, category := some "Bills" } expense1 (by decide) (by decide)

/-- addFundsMutation of GoalCard (goal-card.tsx): the submitted PUT body
carries currentAmount = prior current amount + added amount, and status
completed exactly when the new amount reaches the target, the prior status
otherwise. -/
def addFundsPayload (g : StoredGoal) (amount : Rat) : GoalUpdate :=
  { currentAmount := some (g.currentAmount + amount),
    status := some (if g.targetAmount ≤ g.currentAmount + amount
      then "completed" else g.status) }

/-- C4: for every goal and every positive added amount, the add-funds
payload submits the prior current amount plus the added amount; the status
submitted is completed when the new amount is at least the target, and the
prior status unchanged otherwise. -/
theorem addFunds_status (g : StoredGoal) (amount : Rat) (hpos : 0 < amount) :
    (addFundsPayload g amount).currentAmount = some (g.currentAmount + amount)
    ∧ (g.targetAmount ≤ g.currentAmount + amount →
        (addFundsPayload g amount).status = some "completed")
    ∧ (g.currentAmount + amount < g.targetAmount →
        (addFundsPayload g amount).status = some g.status) := by
  refine ⟨rfl, fun h => ?_, fun h => ?_⟩
  · rw [addFundsPayload]
    simp [if_pos h]
  · rw [addFundsPayload]
    simp [if_neg (not_le.2 h)]

/-- C4 witness: adding 90 to a goal at 10 of 100 submits currentAmount 100
and status completed. -/
theorem addFunds_status_witness :
    (addFundsPayload goal1 90).currentAmount = some (goal1.currentAmount + 90)
    ∧ (addFundsPayload goal1 90).status = some "completed" :=
  ⟨(addFunds_status goal1 90 (by norm_num)).1,
    (addFunds_status goal1 90 (by norm_num)).2.1 (by norm_num [goal1])⟩

end FinanceAdvice

